import Mathlib

/-!
Verification of the CODEOWNERS line-parsing/classification engine and the
membership-reconciliation algorithm of `gitlab-codeowners`.

Strings are modelled as `List Char`.  Each definition mirrors one Go function:
  * `trimSpace`            — `strings.TrimSpace`
  * `goFields`             — `strings.Fields`
  * `splitCodeownersLine`  — `analysis.splitCodeownersLine`
  * `splitOwnerPatterns`   — `analysis.splitOwnerPatterns`
  * `analyze`              — `analysis.(*CodeownersFileAnatomy).Analyze` (on given lines)
  * `setMapToSlice`        — `analysis.setMapToSlice` (maps-as-sets become dup-free lists)
  * `translateCoToGlob`    — `main.translateCoToGlob`
  * `filterSlice`/`remove` — `main.filterSlice` / `main.remove`
  * `checkOwners`          — `main.checkOwners`, instrumented with a query trace
-/

/-- The whitespace test of Go's `unicode.IsSpace` restricted to the Latin-1
range it special-cases: space, tab, newline, vertical tab, form feed,
carriage return, NEL and NBSP. -/
def goIsSpace (c : Char) : Bool :=
  c == ' ' || c == '\t' || c == '\n' || c == '\x0b' || c == '\x0c' || c == '\r' ||
    c == '\u0085' || c == '\u00A0'

/-- Go `strings.TrimSpace`: drop whitespace from both ends. -/
def trimSpace (l : List Char) : List Char :=
  ((l.dropWhile goIsSpace).reverse.dropWhile goIsSpace).reverse

/-- The character-scanning loop of `splitCodeownersLine` (analysis.go lines
151–174).  Arguments mirror the Go loop state: the unread suffix of the line,
the previous character (`none` at the start, so that `i > 0 && line[i-1] == '\\'`
is `false` at `i = 0`), the current index `i`, and the flags `firstCharIsHat`,
`sectionHeadingStarted`, `sectionHeadingEnded`.  Returns the Go variables
`(splitPosition, sectionHeadingStarted)` as left after the loop:
`splitPosition` stays `0` when no split point is found. -/
def splitLoopGo : List Char → Option Char → Nat → Bool → Bool → Bool → Nat × Bool
  | [], _, _, _, started, _ => (0, started)
  | c :: rest, prev, i, hat, started, ended =>
    let prevCharIsEscape := prev == some '\\'
    let hat := if i == 0 && c == '^' then true else hat
    let started := if (i == 0 && c == '[') || (i == 1 && hat && c == '[') then true else started
    let ended := if started && !prevCharIsEscape && c == ']' then true else ended
    if !(started && !ended) && !prevCharIsEscape && (c == ' ' || c == '\t') then (i, started)
    else splitLoopGo rest (some c) (i + 1) hat started ended

/-- Go `analysis.splitCodeownersLine`: split a CODEOWNERS line into
`(sectionHeading, filePattern, ownerPatterns)`. -/
def splitCodeownersLine (line0 : List Char) : List Char × List Char × List Char :=
  let line := trimSpace line0
  if line = [] || line.head? = some '#' then ([], [], [])
  else
    let r := splitLoopGo line none 0 false false false
    let splitPosition := r.1
    let sectionHeadingStarted := r.2
    if splitPosition = 0 then
      if sectionHeadingStarted then (line, [], []) else ([], line, [])
    else
      let leftSide := line.take splitPosition
      let rightSide := line.drop (splitPosition + 1)
      if sectionHeadingStarted then (leftSide, [], rightSide) else ([], leftSide, rightSide)

/-- Accumulator pass of Go `strings.Fields`: split on runs of `goIsSpace`
characters, producing no empty tokens. -/
def fieldsAux : List Char → List Char → List (List Char)
  | [], acc => if acc = [] then [] else [acc.reverse]
  | c :: rest, acc =>
    if goIsSpace c then
      if acc = [] then fieldsAux rest [] else acc.reverse :: fieldsAux rest []
    else fieldsAux rest (c :: acc)

/-- Go `strings.Fields`. -/
def goFields (s : List Char) : List (List Char) :=
  fieldsAux s []

/-- Go `strings.HasPrefix(o, "@")` on our char-list strings. -/
def hasAtHead (o : List Char) : Bool :=
  o.head? == some '@'

/-- Go `strings.Contains(o, "@")`. -/
def containsAt (o : List Char) : Bool :=
  o.contains '@'

/-- Token classification loop of Go `analysis.splitOwnerPatterns`
(analysis.go lines 126–134), in input order. -/
def classifyTokens : List (List Char) → List (List Char) × List (List Char) × List (List Char)
  | [] => ([], [], [])
  | o :: rest =>
    let r := classifyTokens rest
    if hasAtHead o then (o :: r.1, r.2.1, r.2.2)
    else if containsAt o then (r.1, o :: r.2.1, r.2.2)
    else (r.1, r.2.1, o :: r.2.2)

/-- Go `analysis.splitOwnerPatterns`: split the owner portion of a line into
`(usersOrGroups, emails, ignored)`. -/
def splitOwnerPatterns (ownerPatterns : List Char) :
    List (List Char) × List (List Char) × List (List Char) :=
  classifyTokens (goFields ownerPatterns)

/-- Go `strings.TrimPrefix(ug, "@")` as used in `Analyze` (analysis.go line 82). -/
def trimLeadingAt : List Char → List Char
  | '@' :: rest => rest
  | l => l

/-- The owner classification as observed through `Analyze`: tokens classified
as users/groups have their leading `@` stripped (analysis.go lines 80–83). -/
def classifyOwners (ownerPatterns : List Char) :
    List (List Char) × List (List Char) × List (List Char) :=
  let r := splitOwnerPatterns ownerPatterns
  (r.1.map trimLeadingAt, r.2.1, r.2.2)

/-- Insertion `m[k] = true` into a Go `map[string]bool` used as a set:
the key set gains `k` if absent.  (Go map iteration order is unspecified, so
the model fixes one order; all verified properties are order-independent.) -/
def insertSet (m : List (List Char)) (k : List Char) : List (List Char) :=
  if k ∈ m then m else k :: m

/-- Go `analysis.setMapToSlice`: the keys of the map, with the empty-string
key deleted (analysis.go line 103). -/
def setMapToSlice (m : List (List Char)) : List (List Char) :=
  m.erase []

/-- The five fact collections produced by `Analyze`
(fields of `analysis.CodeownersFileAnatomy`). -/
structure FileFacts where
  SectionHeadings : List (List Char)
  FilePatterns : List (List Char)
  UserAndGroupPatterns : List (List Char)
  EmailPatterns : List (List Char)
  IgnoredPatterns : List (List Char)

/-- Per-line accumulation step of `Analyze` (analysis.go lines 70–90):
the five accumulators are the key lists of the five set-maps. -/
def analyzeStep (acc : FileFacts) (l : List Char) : FileFacts :=
  let p := splitCodeownersLine l
  let sectionHeading := p.1
  let filePattern := p.2.1
  let ownerPatterns := p.2.2
  let o := splitOwnerPatterns ownerPatterns
  { SectionHeadings := insertSet acc.SectionHeadings sectionHeading
    FilePatterns := insertSet acc.FilePatterns filePattern
    UserAndGroupPatterns := o.1.foldl (fun m ug => insertSet m (trimLeadingAt ug)) acc.UserAndGroupPatterns
    EmailPatterns := o.2.1.foldl insertSet acc.EmailPatterns
    IgnoredPatterns := o.2.2.foldl insertSet acc.IgnoredPatterns }

/-- Go `analysis.(*CodeownersFileAnatomy).Analyze` on a given list of lines
(analysis.go lines 57–98): accumulate the five fact sets over every line,
then turn each set-map into a slice, deleting the empty-string key. -/
def analyze (lines : List (List Char)) : FileFacts :=
  let m := lines.foldl analyzeStep ⟨[], [], [], [], []⟩
  { SectionHeadings := setMapToSlice m.SectionHeadings
    FilePatterns := setMapToSlice m.FilePatterns
    UserAndGroupPatterns := setMapToSlice m.UserAndGroupPatterns
    EmailPatterns := setMapToSlice m.EmailPatterns
    IgnoredPatterns := setMapToSlice m.IgnoredPatterns }

/-- Go `strings.HasPrefix(pattern, "/")`. -/
def hasSlashHead (pattern : List Char) : Bool :=
  pattern.head? == some '/'

/-- Go `strings.HasSuffix(pattern, "/")`. -/
def hasSlashLast (pattern : List Char) : Bool :=
  pattern.getLast? == some '/'

/-- Go `main.translateCoToGlob`: translate a CODEOWNERS file pattern into a
standard glob expression (main.go lines 208–222). -/
def translateCoToGlob (pattern : List Char) : List Char :=
  let translated := pattern
  let translated :=
    if hasSlashHead pattern then (".").toList ++ translated
    else ("./**/").toList ++ translated
  if hasSlashLast pattern then translated ++ ("**/*").toList else translated

/-- Go `main.remove`: delete the element at index `i` of a slice by moving the
last element into its place and shrinking the slice by one (main.go lines
327–330).  Does not preserve order. -/
def remove (s : List String) (i : Nat) : List String :=
  (s.set i (s.getLastD "")).take (s.length - 1)

/-- One iteration of the `filterSlice` loop body (main.go lines 313–321):
find the first occurrence of `filterElement` in `original` (Go
`slices.IndexFunc`, whose `-1`-when-absent is modelled by `List.findIdx`
returning the length) and, when present, `remove` it. -/
def filterStep (original : List String) (filterElement : String) : List String :=
  let originalIndex := original.findIdx (fun e => e == filterElement)
  if originalIndex < original.length then remove original originalIndex else original

/-- Go `main.filterSlice` (main.go lines 311–323). -/
def filterSlice (original filterAgainst : List String) : List String :=
  filterAgainst.foldl filterStep original

/-- Errors as Go `error` values built by `fmt.Errorf`: either an error produced
by a collaborator, or a wrap of an inner error with a context message (`%w`). -/
inductive GoErr where
  | base : String → GoErr
  | wrap : String → GoErr → GoErr
deriving DecidableEq

/-- One query to an external membership source, as named in the trace of
`checkOwners`: `GetDirectGroupMembers`, or `GetDirectUserMembers` with its
membership-type argument (`"INVITED_GROUPS"` or `"DIRECT"`). -/
inductive Query where
  | directGroups : Query
  | userMembers : String → Query
deriving DecidableEq

/-- The `groupChecker` collaborator of `main.checkOwners`:
`GetDirectGroupMembers(projectFullPath) (groups, err)`. -/
def GroupChecker : Type :=
  String → Except GoErr (List String)

/-- The `userChecker` collaborator of `main.checkOwners`:
`GetDirectUserMembers(projectFullPath, userSource) (usernamesFound, emailsFound, err)`. -/
def UserChecker : Type :=
  String → String → Except GoErr (List String × List String)

/-- Result of `checkOwners`: the Go return values
`(remainingUsersGroups, remainingEmails, err)` plus the trace of membership
queries issued, in order. -/
structure CheckOwnersResult where
  remainingUsersGroups : List String
  remainingEmails : List String
  err : Option GoErr
  trace : List Query
deriving DecidableEq

/-- Go `main.checkOwners` (main.go lines 227–270), instrumented with the list
of membership-source queries it performs.  Stage 1 queries direct group
members; stage 2 queries user members via invited groups; stage 3 queries
direct user members.  After stages 1 and 2 it returns early if both remaining
lists are empty, and any stage error is wrapped and returned at once. -/
def checkOwners (uChecker : UserChecker) (gChecker : GroupChecker)
    (projectFullPath : String) (ugList emailList : List String) : CheckOwnersResult :=
  let remainingUsersGroups := ugList
  let remainingEmails := emailList
  match gChecker projectFullPath with
  | .error e =>
    { remainingUsersGroups, remainingEmails,
      err := some (.wrap "checkOffUsersAndGroups() errored in gChecker.GetDirectGroupMembers()" e),
      trace := [.directGroups] }
  | .ok groupsFound =>
    let remainingUsersGroups := filterSlice remainingUsersGroups groupsFound
    if remainingUsersGroups.length = 0 && remainingEmails.length = 0 then
      { remainingUsersGroups, remainingEmails, err := none, trace := [.directGroups] }
    else
      match uChecker projectFullPath "INVITED_GROUPS" with
      | .error e =>
        { remainingUsersGroups, remainingEmails,
          err := some (.wrap "checkOffUsersAndGroups() errored in uChecker.GetDirectUserMembers() INVITED_GROUPS" e),
          trace := [.directGroups, .userMembers "INVITED_GROUPS"] }
      | .ok found =>
        let remainingUsersGroups := filterSlice remainingUsersGroups found.1
        let remainingEmails := filterSlice remainingEmails found.2
        if remainingUsersGroups.length = 0 && remainingEmails.length = 0 then
          { remainingUsersGroups, remainingEmails, err := none,
            trace := [.directGroups, .userMembers "INVITED_GROUPS"] }
        else
          match uChecker projectFullPath "DIRECT" with
          | .error e =>
            { remainingUsersGroups, remainingEmails,
              err := some (.wrap "checkOffUsersAndGroups() errored in uChecker.GetDirectUserMembers() DIRECT" e),
              trace := [.directGroups, .userMembers "INVITED_GROUPS", .userMembers "DIRECT"] }
          | .ok found2 =>
            let remainingUsersGroups := filterSlice remainingUsersGroups found2.1
            let remainingEmails := filterSlice remainingEmails found2.2
            { remainingUsersGroups, remainingEmails, err := none,
              trace := [.directGroups, .userMembers "INVITED_GROUPS", .userMembers "DIRECT"] }

/-! ### Declarative characterization of the split-point search -/

/-- Value of the `sectionHeadingStarted` flag at the end of iteration `i` of
the scan: the line begins with `[`, or begins with `^[` and iteration 1 has
been reached. -/
def headingStartedBy (t : List Char) (i : Nat) : Bool :=
  (t[0]? == some '[') || (decide (1 ≤ i) && (t[0]? == some '^') && (t[1]? == some '['))

/-- Go's `prevCharIsEscape` at index `i`: `i > 0 && line[i-1] == '\\'`. -/
def prevIsBackslash (t : List Char) (i : Nat) : Bool :=
  decide (1 ≤ i) && (t[i-1]? == some '\\')

/-- Value of the `sectionHeadingEnded` flag at the end of iteration `i`:
some iteration `j ≤ i` saw a `]` with the heading started and the previous
character not a backslash. -/
def endedBy (t : List Char) (i : Nat) : Bool :=
  (List.range (i + 1)).any fun j =>
    headingStartedBy t j && !prevIsBackslash t j && (t[j]? == some ']')

/-- The scan breaks at index `i`: the character is a space or tab, the
previous character is not a backslash, and position `i` is not inside an
open-and-unclosed section heading. -/
def isSplitPoint (t : List Char) (i : Nat) : Bool :=
  !(headingStartedBy t i && !endedBy t i) && !prevIsBackslash t i &&
    (t[i]? == some ' ' || t[i]? == some '\t')

/-- The `sectionHeadingStarted` flag after a full scan of the line:
the line begins with `[` or `^[`. -/
def headingStartedFull (t : List Char) : Bool :=
  headingStartedBy t t.length

/-- State of the scan entering iteration `k`: previous character. -/
def prevAt (t : List Char) (k : Nat) : Option Char :=
  if k = 0 then none else t[k-1]?

/-- State of the scan entering iteration `k`: `firstCharIsHat` flag. -/
def hatPre (t : List Char) (k : Nat) : Bool :=
  decide (1 ≤ k) && (t[0]? == some '^')

/-- State of the scan entering iteration `k`: `sectionHeadingStarted` flag. -/
def startedPre (t : List Char) (k : Nat) : Bool :=
  if k = 0 then false else headingStartedBy t (k - 1)

/-- State of the scan entering iteration `k`: `sectionHeadingEnded` flag. -/
def endedPre (t : List Char) (k : Nat) : Bool :=
  if k = 0 then false else endedBy t (k - 1)

/-- First split point at index `≥ k`, if any. -/
def firstSplit (t : List Char) (k : Nat) : Option Nat :=
  (List.range' k (t.length - k)).find? fun i => isSplitPoint t i

/-- Declarative value of the scanning loop started at iteration `k`. -/
def loopSpec (t : List Char) (k : Nat) : Nat × Bool :=
  match firstSplit t k with
  | some i => (i, headingStartedBy t i)
  | none => (0, headingStartedFull t)

theorem getElem?_of_drop_eq_cons :
    ∀ (t : List Char) (k : Nat) (c : Char) (s' : List Char),
      t.drop k = c :: s' → t[k]? = some c
  | [], k, c, s', h => by simp at h
  | a :: t, 0, c, s', h => by simp_all
  | a :: t, k + 1, c, s', h => by
    simpa using getElem?_of_drop_eq_cons t k c s' (by simpa using h)

theorem headingStartedBy_congr (t : List Char) {m m' : Nat} (hm : 1 ≤ m) (hm' : 1 ≤ m') :
    headingStartedBy t m = headingStartedBy t m' := by
  simp [headingStartedBy, hm, hm']

theorem startedPre_of_le (t : List Char) (k : Nat) (h : t.length ≤ k) :
    startedPre t k = headingStartedFull t := by
  match k with
  | 0 =>
    have h0 : t = [] := List.length_eq_zero.mp (Nat.le_zero.mp h)
    subst h0
    simp [startedPre, headingStartedFull, headingStartedBy]
  | j + 1 =>
    simp only [startedPre, Nat.add_sub_cancel, if_neg (Nat.succ_ne_zero j)]
    unfold headingStartedFull
    by_cases h2 : 2 ≤ t.length
    · exact headingStartedBy_congr t (by omega) (by omega)
    · have h1 : t[1]? = none := List.getElem?_eq_none (by omega)
      simp [headingStartedBy, h1]

theorem bool_ext {a b : Bool} (h : a = true ↔ b = true) : a = b := by
  cases a <;> cases b <;> simp_all

theorem prevAt_beq_backslash (t : List Char) (k : Nat) :
    (prevAt t k == some '\\') = prevIsBackslash t k := by
  match k with
  | 0 => simp [prevAt, prevIsBackslash]
  | j + 1 => simp [prevAt, prevIsBackslash]

theorem hat_update (t : List Char) (k : Nat) (c : Char) (hget : t[k]? = some c) :
    (if k == 0 && c == '^' then true else hatPre t k) = hatPre t (k + 1) := by
  match k with
  | 0 =>
    by_cases hc : c = '^' <;> simp [hatPre, hget, hc]
  | j + 1 => simp [hatPre]

theorem started_update (t : List Char) (k : Nat) (c : Char) (hget : t[k]? = some c) :
    (if (k == 0 && c == '[') || (k == 1 && hatPre t (k + 1) && c == '[') then true
      else startedPre t k) = headingStartedBy t k := by
  match k with
  | 0 =>
    by_cases hc : c = '[' <;> simp [hatPre, startedPre, headingStartedBy, hget, hc]
  | 1 =>
    apply bool_ext
    by_cases hc : c = '[' <;> (simp [hatPre, startedPre, headingStartedBy, hget, hc]; try tauto)
  | j + 2 =>
    have : headingStartedBy t (j + 1) = headingStartedBy t (j + 2) :=
      headingStartedBy_congr t (by omega) (by omega)
    simp [startedPre, this]

theorem endedBy_zero (t : List Char) :
    endedBy t 0 = (headingStartedBy t 0 && !prevIsBackslash t 0 && (t[0]? == some ']')) := by
  have h1 : List.range 1 = [0] := rfl
  simp [endedBy, h1, Bool.and_assoc]

theorem endedBy_succ (t : List Char) (j : Nat) :
    endedBy t (j + 1) =
      (endedBy t j || (headingStartedBy t (j+1) && !prevIsBackslash t (j+1) && (t[j+1]? == some ']'))) := by
  have hr : List.range (j + 1 + 1) = List.range (j + 1) ++ [j + 1] := by
    simp [List.range_succ]
  simp [endedBy, hr, List.any_append, Bool.and_assoc]

theorem ended_update (t : List Char) (k : Nat) (c : Char) (hget : t[k]? = some c) :
    (if headingStartedBy t k && !prevIsBackslash t k && c == ']' then true
      else endedPre t k) = endedBy t k := by
  have hgc : (t[k]? == some ']') = (c == ']') := by rw [hget]; simp
  match k with
  | 0 =>
    rw [endedBy_zero, hgc]
    cases hA : (headingStartedBy t 0 && !prevIsBackslash t 0 && (c == ']')) <;>
      simp [← Bool.and_assoc] at hA <;> simp [hA, endedPre]
  | j + 1 =>
    rw [endedBy_succ, hgc]
    cases hA : (headingStartedBy t (j+1) && !prevIsBackslash t (j+1) && (c == ']')) <;>
      simp [← Bool.and_assoc] at hA <;> simp [hA, endedPre]

theorem splitLoopGo_eq_loopSpec (t : List Char) :
    ∀ (s : List Char) (k : Nat), t.drop k = s →
      splitLoopGo s (prevAt t k) k (hatPre t k) (startedPre t k) (endedPre t k) = loopSpec t k := by
  intro s
  induction s with
  | nil =>
    intro k h
    have hlen : t.length ≤ k := List.drop_eq_nil_iff.mp h
    have hz : t.length - k = 0 := Nat.sub_eq_zero_of_le hlen
    simp [splitLoopGo, loopSpec, firstSplit, hz, startedPre_of_le t k hlen]
  | cons c s' ih =>
    intro k h
    have hget : t[k]? = some c := getElem?_of_drop_eq_cons t k c s' h
    have hk : k < t.length := by
      by_contra hh
      rw [List.drop_eq_nil_of_le (by omega)] at h
      cases h
    have hdrop' : t.drop (k + 1) = s' := by
      have h1 : List.drop 1 (List.drop k t) = List.drop 1 (c :: s') := by rw [h]
      simpa [List.drop_drop] using h1
    have eprev : prevAt t (k + 1) = some c := by simp [prevAt, hget]
    have estarted : startedPre t (k + 1) = headingStartedBy t k := by simp [startedPre]
    have eended : endedPre t (k + 1) = endedBy t k := by simp [endedPre]
    simp only [splitLoopGo]
    rw [show (prevAt t k == some '\\') = prevIsBackslash t k from prevAt_beq_backslash t k]
    rw [hat_update t k c hget]
    rw [started_update t k c hget]
    rw [ended_update t k c hget]
    have e5 : (!(headingStartedBy t k && !endedBy t k) && !prevIsBackslash t k &&
        (c == ' ' || c == '\t')) = isSplitPoint t k := by
      simp [isSplitPoint, hget]
    rw [e5]
    have hn : t.length - k = (t.length - (k + 1)) + 1 := by omega
    by_cases hsp : isSplitPoint t k = true
    · simp only [hsp, if_true]
      simp [loopSpec, firstSplit, hn, List.range'_succ, List.find?_cons_of_pos, hsp]
    · have hsp' : isSplitPoint t k = false := Bool.eq_false_iff.mpr hsp
      simp only [hsp', Bool.false_eq_true, if_false]
      rw [← eprev, ← estarted, ← eended, ih (k + 1) hdrop']
      simp [loopSpec, firstSplit, hn, List.range'_succ, List.find?_cons_of_neg, hsp]

theorem find?_range'_eq_some {p : Nat → Bool} :
    ∀ (n k i : Nat), k ≤ i → i < k + n → p i = true →
      (∀ j, k ≤ j → j < i → p j = false) →
      (List.range' k n).find? p = some i
  | 0, _, _, _, hin, _, _ => absurd hin (by omega)
  | n + 1, k, i, hki, hin, hp, hmin => by
    rw [List.range'_succ]
    by_cases hk : k = i
    · subst hk
      rw [List.find?_cons_of_pos _ hp]
    · have hlt : k < i := lt_of_le_of_ne hki hk
      rw [List.find?_cons_of_neg _ (by simp [hmin k le_rfl hlt])]
      exact find?_range'_eq_some n (k + 1) i (by omega) (by omega) hp
        (fun j h1 h2 => hmin j (by omega) h2)

theorem splitLoop_eq_of_first (t : List Char) (i : Nat)
    (hp : isSplitPoint t i = true) (hmin : ∀ j < i, isSplitPoint t j = false) :
    splitLoopGo t none 0 false false false = (i, headingStartedBy t i) := by
  have h0 := splitLoopGo_eq_loopSpec t t 0 rfl
  have hilen : i < t.length := by
    by_contra hh
    have hnone : t[i]? = none := List.getElem?_eq_none (by omega)
    simp [isSplitPoint, hnone] at hp
  have hfs : firstSplit t 0 = some i := by
    unfold firstSplit
    have hbound : i < 0 + (t.length - 0) := by omega
    exact find?_range'_eq_some (t.length - 0) 0 i (Nat.zero_le i) hbound hp
      (fun j _ h2 => hmin j h2)
  simpa [prevAt, hatPre, startedPre, endedPre, loopSpec, hfs] using h0

theorem splitLoop_eq_of_none (t : List Char)
    (hnone : ∀ j < t.length, isSplitPoint t j = false) :
    splitLoopGo t none 0 false false false = (0, headingStartedFull t) := by
  have h0 := splitLoopGo_eq_loopSpec t t 0 rfl
  have hfs : firstSplit t 0 = none := by
    unfold firstSplit
    apply List.find?_eq_none.mpr
    intro x hx
    have hx' := List.mem_range'.mp hx
    obtain ⟨i, hi, rfl⟩ := hx'
    simp only [Bool.not_eq_true, Nat.zero_add, Nat.one_mul]
    exact hnone i (by omega)
  simpa [prevAt, hatPre, startedPre, endedPre, loopSpec, hfs] using h0

theorem trimSpace_head_not_space (l : List Char) :
    ∀ c, (trimSpace l).head? = some c → goIsSpace c = false := by
  intro c h
  rcases hA : l.dropWhile goIsSpace with _ | ⟨a, A'⟩
  · rw [trimSpace, hA] at h
    simp at h
  · have pa : goIsSpace a = false := by
      have hh := List.head?_dropWhile_not goIsSpace l
      rw [hA] at hh
      simpa using hh
    rw [trimSpace, hA] at h
    have hhead : ((a :: A').reverse.dropWhile goIsSpace).reverse.head? = some a := by
      rw [show (a :: A').reverse = A'.reverse ++ [a] from by simp]
      rw [List.dropWhile_append]
      by_cases hD : (A'.reverse.dropWhile goIsSpace).isEmpty
      · simp [hD, List.dropWhile, pa]
      · simp [hD]
    rw [hhead] at h
    cases h
    exact pa

/-- The line "begins with `[` or `^[`". -/
def beginsHeadingMarker (t : List Char) : Bool :=
  (t[0]? == some '[') || ((t[0]? == some '^') && (t[1]? == some '['))

theorem headingStartedFull_eq (t : List Char) :
    headingStartedFull t = beginsHeadingMarker t := by
  unfold headingStartedFull headingStartedBy beginsHeadingMarker
  rcases t with _ | ⟨a, t'⟩
  · simp
  · simp [Nat.le_add_left]

theorem isSplitPoint_zero_false (line : List Char) :
    isSplitPoint (trimSpace line) 0 = false := by
  rcases hh : (trimSpace line).head? with _ | c
  · have h0 : (trimSpace line)[0]? = none := by
      rcases htr : trimSpace line with _ | ⟨a, r⟩
      · rfl
      · rw [htr] at hh; simp at hh
    simp [isSplitPoint, h0]
  · have hns := trimSpace_head_not_space line c hh
    have h0 : (trimSpace line)[0]? = some c := by
      rcases htr : trimSpace line with _ | ⟨a, r⟩
      · rw [htr] at hh; simp at hh
      · rw [htr] at hh; simp at hh; simp [hh]
    have hc1 : (c == ' ') = false := by
      cases hcc : c == ' '
      · rfl
      · exfalso
        have hce : c = ' ' := by simpa using hcc
        rw [hce] at hns
        simp [goIsSpace] at hns
    have hc2 : (c == '\t') = false := by
      cases hcc : c == '\t'
      · rfl
      · exfalso
        have hce : c = '\t' := by simpa using hcc
        rw [hce] at hns
        simp [goIsSpace] at hns
    simp [isSplitPoint, h0, hc1, hc2]

/-! ### Claim C1: the split-point rule, with the claim's reading of "unescaped" -/

/-- The escape notion asserted by the claim: the previous character is an
*unescaped* backslash, where a backslash is unescaped exactly when it is not
itself preceded by an unescaped backslash (so escape status alternates
through a run of backslashes). -/
def claimPrevUnescaped (t : List Char) : Nat → Bool
  | 0 => false
  | i + 1 => (t[i]? == some '\\') && !(claimPrevUnescaped t i)

/-- `sectionHeadingEnded` under the claim's escape notion. -/
def claimEndedBy (t : List Char) (i : Nat) : Bool :=
  (List.range (i + 1)).any fun j =>
    headingStartedBy t j && !claimPrevUnescaped t j && (t[j]? == some ']')

/-- Split point under the claim's escape notion: a space or tab whose
previous character is not an unescaped backslash, outside an
open-and-unclosed section heading. -/
def claimIsSplitPoint (t : List Char) (i : Nat) : Bool :=
  !(headingStartedBy t i && !claimEndedBy t i) && !claimPrevUnescaped t i &&
    (t[i]? == some ' ' || t[i]? == some '\t')

/-- C1 (counterexample): on the line `a\\ b` — a space preceded by a doubled
backslash — index 3 is the first split point under the claim's notion of
"unescaped" (the backslash before the space is itself escaped), so the claim
predicts owner text `b`; but `splitCodeownersLine` treats any space whose
immediately preceding character is a backslash as escaped, finds no split
point, and returns empty owner text. -/
theorem splitCodeownersLine_doubled_backslash_counterexample :
    claimIsSplitPoint (("a\\\\ b").toList) 3 = true ∧
    (∀ j < 3, claimIsSplitPoint (("a\\\\ b").toList) j = false) ∧
    trimSpace (("a\\\\ b").toList) = ("a\\\\ b").toList ∧
    (("a\\\\ b").toList).drop (3 + 1) = ("b").toList ∧
    (splitCodeownersLine (("a\\\\ b").toList)).2.2 = [] ∧
    (("b").toList : List Char) ≠ [] := by
  decide

/-- C1 (amended): for every line, if `i` is the first index of the trimmed
line that is a space or tab whose immediately preceding character is not a
backslash (regardless of whether that backslash is itself escaped) and that
is not inside an open-and-unclosed bracketed section heading, then the parser
splits there: the delimiter is consumed, everything before it becomes the
heading or the file pattern, and everything strictly after it becomes the
owner-patterns text. -/
theorem splitCodeownersLine_first_split_point (line : List Char) (i : Nat)
    (hne : trimSpace line ≠ [])
    (hcm : (trimSpace line).head? ≠ some '#')
    (hp : isSplitPoint (trimSpace line) i = true)
    (hmin : ∀ j < i, isSplitPoint (trimSpace line) j = false) :
    (splitCodeownersLine line).2.2 = (trimSpace line).drop (i + 1) ∧
      ((splitCodeownersLine line).1 = (trimSpace line).take i ∨
        (splitCodeownersLine line).2.1 = (trimSpace line).take i) := by
  have hloop := splitLoop_eq_of_first (trimSpace line) i hp hmin
  have hi0 : i ≠ 0 := by
    intro h0
    rw [h0] at hp
    rw [isSplitPoint_zero_false line] at hp
    cases hp
  unfold splitCodeownersLine
  simp only [hloop, hne, hcm]
  rcases hflag : headingStartedBy (trimSpace line) i <;> simp [hne, hcm, hi0, hflag]

/-- Witness for C1 (amended) at the line `src/x @dev`, whose first split
point is index 5. -/
theorem splitCodeownersLine_first_split_point_witness :
    (splitCodeownersLine (("src/x @dev").toList)).2.2 =
        (trimSpace (("src/x @dev").toList)).drop (5 + 1) ∧
      ((splitCodeownersLine (("src/x @dev").toList)).1 =
          (trimSpace (("src/x @dev").toList)).take 5 ∨
        (splitCodeownersLine (("src/x @dev").toList)).2.1 =
          (trimSpace (("src/x @dev").toList)).take 5) :=
  splitCodeownersLine_first_split_point (("src/x @dev").toList) 5
    (by decide) (by decide) (by decide) (by decide)

/-- C2: every line parses to at most one of section heading and file pattern;
blank and comment lines parse to all-empty; and a line with no split point
becomes, whole, the section heading when it begins with `[` or `^[` and the
file pattern otherwise, with empty owner-patterns text. -/
theorem splitCodeownersLine_parsedLine_invariant (line : List Char) :
    ((splitCodeownersLine line).1 = [] ∨ (splitCodeownersLine line).2.1 = []) ∧
    (trimSpace line = [] ∨ (trimSpace line).head? = some '#' →
      splitCodeownersLine line = ([], [], [])) ∧
    ((∀ j < (trimSpace line).length, isSplitPoint (trimSpace line) j = false) →
      trimSpace line ≠ [] → (trimSpace line).head? ≠ some '#' →
      (splitCodeownersLine line).2.2 = [] ∧
      (beginsHeadingMarker (trimSpace line) = true →
        splitCodeownersLine line = (trimSpace line, [], [])) ∧
      (beginsHeadingMarker (trimSpace line) = false →
        splitCodeownersLine line = ([], trimSpace line, []))) := by
  refine ⟨?_, ?_, ?_⟩
  · unfold splitCodeownersLine
    dsimp only
    split
    · simp
    · split
      · split <;> simp
      · split <;> simp
  · intro h
    unfold splitCodeownersLine
    rcases h with h | h <;> simp [h]
  · intro hnone hne hcm
    have hloop := splitLoop_eq_of_none (trimSpace line) hnone
    rw [headingStartedFull_eq] at hloop
    unfold splitCodeownersLine
    rcases hflag : beginsHeadingMarker (trimSpace line) <;>
      simp [hloop, hne, hcm, hflag]

/-- Witness for C2 at the heading-only line `[Sec]`. -/
theorem splitCodeownersLine_parsedLine_invariant_witness :
    splitCodeownersLine (("[Sec]").toList) = (trimSpace (("[Sec]").toList), [], []) :=
  ((splitCodeownersLine_parsedLine_invariant (("[Sec]").toList)).2.2
    (by decide) (by decide) (by decide)).2.1 (by decide)

/-! ### Claim C3: owner-token classification -/

theorem fieldsAux_ne_nil : ∀ (s acc : List Char), ∀ tk ∈ fieldsAux s acc, tk ≠ []
  | [], acc => by
    by_cases h : acc = [] <;> simp [fieldsAux, h]
  | c :: rest, acc => by
    intro tk htk
    by_cases hsp : goIsSpace c
    · by_cases h : acc = []
      · rw [fieldsAux, if_pos hsp, if_pos h] at htk
        exact fieldsAux_ne_nil rest [] tk htk
      · rw [fieldsAux, if_pos hsp, if_neg h] at htk
        rcases List.mem_cons.mp htk with h1 | h1
        · subst h1
          simpa using h
        · exact fieldsAux_ne_nil rest [] tk h1
    · rw [fieldsAux, if_neg hsp] at htk
      exact fieldsAux_ne_nil rest (c :: acc) tk htk

theorem classifyTokens_filter (toks : List (List Char)) :
    (classifyTokens toks).1 = toks.filter (fun tk => hasAtHead tk) ∧
    (classifyTokens toks).2.1 = toks.filter (fun tk => !hasAtHead tk && containsAt tk) ∧
    (classifyTokens toks).2.2 = toks.filter (fun tk => !hasAtHead tk && !containsAt tk) := by
  induction toks with
  | nil => simp [classifyTokens]
  | cons o rest ih =>
    rcases h1 : hasAtHead o <;> rcases h2 : containsAt o <;>
      simp [classifyTokens, h1, h2, ih.1, ih.2.1, ih.2.2]

/-- C3: the owner classifier splits the owner text on runs of whitespace into
non-empty tokens and puts each token in exactly one class: tokens starting
with `@` become users/groups with the `@` stripped, other tokens containing
`@` become emails verbatim, and the rest are ignored; in particular
`"@grp1 user@example.com plainword"` classifies to users/groups `["grp1"]`,
emails `["user@example.com"]`, ignored `["plainword"]`. -/
theorem classifyOwners_spec (s : List Char) :
    (∀ tk ∈ goFields s, tk ≠ []) ∧
    (classifyOwners s).1 = ((goFields s).filter (fun tk => hasAtHead tk)).map trimLeadingAt ∧
    (classifyOwners s).2.1 = (goFields s).filter (fun tk => !hasAtHead tk && containsAt tk) ∧
    (classifyOwners s).2.2 = (goFields s).filter (fun tk => !hasAtHead tk && !containsAt tk) ∧
    classifyOwners (("@grp1 user@example.com plainword").toList) =
      ([("grp1").toList], [("user@example.com").toList], [("plainword").toList]) := by
  have hf := classifyTokens_filter (goFields s)
  refine ⟨fieldsAux_ne_nil s [], ?_, ?_, ?_, by decide⟩
  · simp [classifyOwners, splitOwnerPatterns, hf.1]
  · simp [classifyOwners, splitOwnerPatterns, hf.2.1]
  · simp [classifyOwners, splitOwnerPatterns, hf.2.2]

/-- Witness for C3: the first token of the example owner text is non-empty,
and the example's classification evaluates as stated. -/
theorem classifyOwners_spec_witness :
    (("@grp1").toList : List Char) ≠ [] ∧
    classifyOwners (("@grp1 user@example.com plainword").toList) =
      ([("grp1").toList], [("user@example.com").toList], [("plainword").toList]) :=
  ⟨(classifyOwners_spec (("@grp1 user@example.com plainword").toList)).1
      (("@grp1").toList) (by decide),
    (classifyOwners_spec (("@grp1 user@example.com plainword").toList)).2.2.2.2⟩

/-! ### Claim C4: filterSlice is multiset difference -/

theorem set_perm_eraseIdx_append :
    ∀ (t : List String) (i : Nat) (b : String), i < t.length →
      (t.set i b).Perm (t.eraseIdx i ++ [b])
  | a :: t, 0, b, _ => by
    simpa using (List.perm_append_singleton b t).symm
  | a :: t, i + 1, b, h => by
    show (a :: t.set i b).Perm ((a :: t.eraseIdx i) ++ [b])
    exact (set_perm_eraseIdx_append t i b (by simpa using h)).cons a

theorem remove_perm (s : List String) (i : Nat) (h : i < s.length) :
    (remove s i).Perm (s.eraseIdx i) := by
  rcases List.eq_nil_or_concat' s with rfl | ⟨t, b, rfl⟩
  · simp at h
  · unfold remove
    rw [List.getLastD_concat]
    have hlen : (t ++ [b]).length - 1 = t.length := by simp
    rw [hlen]
    by_cases hi : i < t.length
    · rw [List.set_append_left i b hi]
      rw [List.take_left' (by simp)]
      rw [List.eraseIdx_append_of_lt_length hi]
      exact set_perm_eraseIdx_append t i b hi
    · have hieq : i = t.length := by
        simp only [List.length_append, List.length_cons, List.length_nil] at h
        omega
      subst hieq
      rw [List.set_append_right _ _ (le_refl _)]
      simp only [Nat.sub_self]
      rw [show ([b].set 0 b) = [b] from rfl]
      rw [List.take_left]
      rw [List.eraseIdx_append_of_length_le (le_refl _)]
      simp

theorem eraseIdx_coe_multiset (rem : List String) (i : Nat) (h : i < rem.length) :
    (↑(rem.eraseIdx i) : Multiset String) = (↑rem : Multiset String).erase (rem.get ⟨i, h⟩) := by
  have hsplit : rem = rem.take i ++ rem.get ⟨i, h⟩ :: rem.drop (i + 1) := by
    conv_lhs => rw [← List.take_append_drop i rem]
    rw [List.drop_eq_getElem_cons h]
    rfl
  generalize hx : rem.get ⟨i, h⟩ = x at hsplit ⊢
  have key : (↑rem : Multiset String) = x ::ₘ ↑(rem.take i ++ rem.drop (i + 1)) := by
    conv_lhs => rw [hsplit]
    rw [Multiset.cons_coe]
    exact Multiset.coe_eq_coe.mpr List.perm_middle
  rw [List.eraseIdx_eq_take_drop_succ, key, Multiset.erase_cons_head]

theorem filterStep_multiset (rem : List String) (x : String) :
    (↑(filterStep rem x) : Multiset String) = (↑rem : Multiset String).erase x := by
  by_cases hx : x ∈ rem
  · have hlt : rem.findIdx (fun e => e == x) < rem.length :=
      List.findIdx_lt_length.mpr ⟨x, hx, by simp⟩
    have hval : rem.get ⟨rem.findIdx (fun e => e == x), hlt⟩ = x := by
      have hp := @List.findIdx_getElem _ (fun e => e == x) rem hlt
      simpa using hp
    unfold filterStep
    rw [if_pos hlt]
    rw [Multiset.coe_eq_coe.mpr (remove_perm rem _ hlt)]
    rw [eraseIdx_coe_multiset rem _ hlt, hval]
  · have hge : ¬(rem.findIdx (fun e => e == x) < rem.length) := by
      intro hlt
      rcases List.findIdx_lt_length.mp hlt with ⟨y, hy, hyx⟩
      have : y = x := by simpa using hyx
      exact hx (this ▸ hy)
    unfold filterStep
    rw [if_neg hge]
    rw [Multiset.erase_of_not_mem (by simpa using hx)]

theorem filterSlice_multiset :
    ∀ (fa orig : List String),
      (↑(filterSlice orig fa) : Multiset String) = ↑orig - ↑fa
  | [], orig => by simp [filterSlice]
  | x :: fa, orig => by
    have hstep : filterSlice orig (x :: fa) = filterSlice (filterStep orig x) fa := rfl
    rw [hstep, filterSlice_multiset fa (filterStep orig x), filterStep_multiset]
    rw [show ((x :: fa : List String) : Multiset String) = x ::ₘ ↑fa from rfl]
    rw [Multiset.sub_cons]

/-- C4: `filterSlice` computes the multiset difference of its two arguments:
each element of `foundInSource` removes at most one matching occurrence from
`remaining` (absent elements are a no-op), and the output as a multiset is
exactly `remaining` minus the matched occurrences; in particular subtracting
`["a"]` from `["a","a","b"]` leaves the multiset `{"a","b"}`. -/
theorem filterSlice_is_multiset_difference (remaining foundInSource : List String) :
    (↑(filterSlice remaining foundInSource) : Multiset String) =
      ↑remaining - ↑foundInSource ∧
    (↑(filterSlice ["a", "a", "b"] ["a"]) : Multiset String) =
      (↑(["a", "b"] : List String) : Multiset String) := by
  refine ⟨filterSlice_multiset foundInSource remaining, ?_⟩
  rw [show filterSlice ["a", "a", "b"] ["a"] = ["b", "a"] from rfl]
  exact Multiset.coe_eq_coe.mpr (by decide)

/-! ### Claim C7: pattern translation -/

/-- C7: the translator prefixes `.` for root-anchored patterns (leading `/`)
and `./**/` otherwise, and appends `**/*` when the original pattern ends with
`/`; in particular `"src/"` becomes `"./**/src/**/*"`, `"/README.md"` becomes
`"./README.md"`, and `"*.go"` becomes `"./**/*.go"`. -/
theorem translateCoToGlob_spec (pattern : List Char) :
    translateCoToGlob pattern =
      (if hasSlashHead pattern then (".").toList ++ pattern
        else ("./**/").toList ++ pattern) ++
        (if hasSlashLast pattern then ("**/*").toList else []) ∧
    translateCoToGlob (("src/").toList) = ("./**/src/**/*").toList ∧
    translateCoToGlob (("/README.md").toList) = ("./README.md").toList ∧
    translateCoToGlob (("*.go").toList) = ("./**/*.go").toList := by
  refine ⟨?_, by decide, by decide, by decide⟩
  unfold translateCoToGlob
  by_cases h1 : hasSlashHead pattern <;> by_cases h2 : hasSlashLast pattern <;>
    simp [h1, h2]

/-! ### Claims C5 and C6: reconciliation staging -/

/-- C5: reconciliation queries the membership sources in the fixed order
direct-group-members, then invited-group user members, then direct user
members — the trace is always a prefix of that order — and once both
remaining lists are empty after a stage no later source is queried: if
stage 1 empties both lists the trace stops at the group query, and if
stage 2 does, the `DIRECT` user query never happens. -/
theorem checkOwners_query_order (u : UserChecker) (g : GroupChecker)
    (p : String) (ugList emailList : List String) :
    ((checkOwners u g p ugList emailList).trace = [Query.directGroups] ∨
      (checkOwners u g p ugList emailList).trace =
        [Query.directGroups, Query.userMembers "INVITED_GROUPS"] ∨
      (checkOwners u g p ugList emailList).trace =
        [Query.directGroups, Query.userMembers "INVITED_GROUPS",
          Query.userMembers "DIRECT"]) ∧
    (∀ gs, g p = .ok gs → filterSlice ugList gs = [] → emailList = [] →
      (checkOwners u g p ugList emailList).trace = [Query.directGroups]) ∧
    (∀ gs us es, g p = .ok gs → u p "INVITED_GROUPS" = .ok (us, es) →
      filterSlice (filterSlice ugList gs) us = [] → filterSlice emailList es = [] →
      Query.userMembers "DIRECT" ∉ (checkOwners u g p ugList emailList).trace) := by
  refine ⟨?_, ?_, ?_⟩
  · rcases hg : g p with e | gs
    · simp [checkOwners, hg]
    · by_cases h1 : filterSlice ugList gs = [] ∧ emailList = []
      · simp [checkOwners, hg, h1]
      · rcases hu : u p "INVITED_GROUPS" with e | found
        · simp [checkOwners, hg, h1, hu]
        · by_cases h2 : filterSlice (filterSlice ugList gs) found.1 = [] ∧
              filterSlice emailList found.2 = []
          · simp [checkOwners, hg, h1, hu, h2]
          · rcases hu2 : u p "DIRECT" with e | found2 <;>
              simp [checkOwners, hg, h1, hu, h2, hu2]
  · intro gs hg hug he
    subst he
    simp [checkOwners, hg, hug]
  · intro gs us es hg hu hug he
    by_cases h1 : filterSlice ugList gs = [] ∧ emailList = []
    · simp [checkOwners, hg, h1]
    · simp [checkOwners, hg, h1, hu, hug, he]

/-- Witness for C5: with a group source returning exactly the one listed
group and no candidate emails, stage 1 empties both lists and only the
group query happens. -/
theorem checkOwners_query_order_witness :
    (checkOwners (fun _ _ => Except.ok ([], []))
        (fun _ => Except.ok ["grp"]) "proj" ["grp"] []).trace =
      [Query.directGroups] :=
  (checkOwners_query_order (fun _ _ => Except.ok ([], []))
      (fun _ => Except.ok ["grp"]) "proj" ["grp"] []).2.1
    ["grp"] rfl (by decide) rfl

/-- C6: any membership-source error aborts reconciliation at once: the failing
stage's wrapped error is returned, no later source is queried, and the
remaining lists are exactly those computed before the failing stage. -/
theorem checkOwners_error_propagation (u : UserChecker) (g : GroupChecker)
    (p : String) (ugList emailList : List String) (e : GoErr) :
    (g p = .error e →
      checkOwners u g p ugList emailList =
        { remainingUsersGroups := ugList, remainingEmails := emailList,
          err := some (.wrap "checkOffUsersAndGroups() errored in gChecker.GetDirectGroupMembers()" e),
          trace := [Query.directGroups] }) ∧
    (∀ gs, g p = .ok gs → ¬(filterSlice ugList gs = [] ∧ emailList = []) →
      u p "INVITED_GROUPS" = .error e →
      checkOwners u g p ugList emailList =
        { remainingUsersGroups := filterSlice ugList gs, remainingEmails := emailList,
          err := some (.wrap "checkOffUsersAndGroups() errored in uChecker.GetDirectUserMembers() INVITED_GROUPS" e),
          trace := [Query.directGroups, Query.userMembers "INVITED_GROUPS"] }) ∧
    (∀ gs us es, g p = .ok gs → ¬(filterSlice ugList gs = [] ∧ emailList = []) →
      u p "INVITED_GROUPS" = .ok (us, es) →
      ¬(filterSlice (filterSlice ugList gs) us = [] ∧ filterSlice emailList es = []) →
      u p "DIRECT" = .error e →
      checkOwners u g p ugList emailList =
        { remainingUsersGroups := filterSlice (filterSlice ugList gs) us,
          remainingEmails := filterSlice emailList es,
          err := some (.wrap "checkOffUsersAndGroups() errored in uChecker.GetDirectUserMembers() DIRECT" e),
          trace := [Query.directGroups, Query.userMembers "INVITED_GROUPS",
            Query.userMembers "DIRECT"] }) := by
  refine ⟨?_, ?_, ?_⟩
  · intro hg
    simp [checkOwners, hg]
  · intro gs hg h1 hu
    simp [checkOwners, hg, h1, hu]
  · intro gs us es hg h1 hu h2 hu2
    simp [checkOwners, hg, h1, hu, h2, hu2]

/-- Witness for C6: a failing group query aborts reconciliation with the
wrapped error after only the group query. -/
theorem checkOwners_error_propagation_witness :
    checkOwners (fun _ _ => Except.ok ([], []))
        (fun _ => Except.error (GoErr.base "boom")) "proj" ["u1"] [] =
      { remainingUsersGroups := ["u1"], remainingEmails := [],
        err := some (.wrap "checkOffUsersAndGroups() errored in gChecker.GetDirectGroupMembers()"
          (GoErr.base "boom")),
        trace := [Query.directGroups] } :=
  (checkOwners_error_propagation (fun _ _ => Except.ok ([], []))
      (fun _ => Except.error (GoErr.base "boom")) "proj" ["u1"] []
      (GoErr.base "boom")).1 rfl

/-! ### Claim C8: the fact sets are duplicate-free and never contain "" -/

theorem insertSet_nodup {m : List (List Char)} (h : m.Nodup) (k : List Char) :
    (insertSet m k).Nodup := by
  unfold insertSet
  by_cases hk : k ∈ m
  · simp [hk, h]
  · simp [hk, List.nodup_cons, h]

theorem foldl_insertSet_nodup {β : Type} (f : β → List Char) :
    ∀ (l : List β) (m : List (List Char)), m.Nodup →
      (l.foldl (fun acc x => insertSet acc (f x)) m).Nodup
  | [], _, h => h
  | x :: l, _, h => foldl_insertSet_nodup f l _ (insertSet_nodup h (f x))

theorem analyzeStep_nodup {acc : FileFacts} (l : List Char)
    (h1 : acc.SectionHeadings.Nodup) (h2 : acc.FilePatterns.Nodup)
    (h3 : acc.UserAndGroupPatterns.Nodup) (h4 : acc.EmailPatterns.Nodup)
    (h5 : acc.IgnoredPatterns.Nodup) :
    (analyzeStep acc l).SectionHeadings.Nodup ∧ (analyzeStep acc l).FilePatterns.Nodup ∧
    (analyzeStep acc l).UserAndGroupPatterns.Nodup ∧ (analyzeStep acc l).EmailPatterns.Nodup ∧
    (analyzeStep acc l).IgnoredPatterns.Nodup := by
  refine ⟨insertSet_nodup h1 _, insertSet_nodup h2 _, ?_, ?_, ?_⟩
  · exact foldl_insertSet_nodup trimLeadingAt _ _ h3
  · exact foldl_insertSet_nodup id _ _ h4
  · exact foldl_insertSet_nodup id _ _ h5

theorem analyzeFold_nodup :
    ∀ (lines : List (List Char)) (acc : FileFacts),
      acc.SectionHeadings.Nodup → acc.FilePatterns.Nodup →
      acc.UserAndGroupPatterns.Nodup → acc.EmailPatterns.Nodup → acc.IgnoredPatterns.Nodup →
      (lines.foldl analyzeStep acc).SectionHeadings.Nodup ∧
      (lines.foldl analyzeStep acc).FilePatterns.Nodup ∧
      (lines.foldl analyzeStep acc).UserAndGroupPatterns.Nodup ∧
      (lines.foldl analyzeStep acc).EmailPatterns.Nodup ∧
      (lines.foldl analyzeStep acc).IgnoredPatterns.Nodup
  | [], _, h1, h2, h3, h4, h5 => ⟨h1, h2, h3, h4, h5⟩
  | l :: ls, acc, h1, h2, h3, h4, h5 => by
    have hstep := @analyzeStep_nodup acc l h1 h2 h3 h4 h5
    exact analyzeFold_nodup ls (analyzeStep acc l)
      hstep.1 hstep.2.1 hstep.2.2.1 hstep.2.2.2.1 hstep.2.2.2.2

theorem setMapToSlice_nodup {m : List (List Char)} (h : m.Nodup) :
    (setMapToSlice m).Nodup :=
  List.Nodup.erase [] h

theorem setMapToSlice_no_empty {m : List (List Char)} (h : m.Nodup) :
    [] ∉ setMapToSlice m := by
  intro hmem
  exact absurd ((List.Nodup.mem_erase_iff h).mp hmem).1 (by simp)

/-- C8: every fact collection produced by `Analyze` is duplicate-free and
never contains the empty string. -/
theorem analyze_fact_sets_nodup_no_empty (lines : List (List Char)) :
    ((analyze lines).SectionHeadings.Nodup ∧ [] ∉ (analyze lines).SectionHeadings) ∧
    ((analyze lines).FilePatterns.Nodup ∧ [] ∉ (analyze lines).FilePatterns) ∧
    ((analyze lines).UserAndGroupPatterns.Nodup ∧ [] ∉ (analyze lines).UserAndGroupPatterns) ∧
    ((analyze lines).EmailPatterns.Nodup ∧ [] ∉ (analyze lines).EmailPatterns) ∧
    ((analyze lines).IgnoredPatterns.Nodup ∧ [] ∉ (analyze lines).IgnoredPatterns) := by
  have hm := analyzeFold_nodup lines ⟨[], [], [], [], []⟩
    List.nodup_nil List.nodup_nil List.nodup_nil List.nodup_nil List.nodup_nil
  exact ⟨⟨setMapToSlice_nodup hm.1, setMapToSlice_no_empty hm.1⟩,
    ⟨setMapToSlice_nodup hm.2.1, setMapToSlice_no_empty hm.2.1⟩,
    ⟨setMapToSlice_nodup hm.2.2.1, setMapToSlice_no_empty hm.2.2.1⟩,
    ⟨setMapToSlice_nodup hm.2.2.2.1, setMapToSlice_no_empty hm.2.2.2.1⟩,
    ⟨setMapToSlice_nodup hm.2.2.2.2, setMapToSlice_no_empty hm.2.2.2.2⟩⟩

/-! ### Claims C9 and C10 -/

/-- C9: the line parser, the owner classifier, the pattern translator and the
subtraction primitive are total: modelled as Lean functions whose termination
is checked structurally, they return a result on every input. -/
theorem helper_functions_total (line ownerText pattern : List Char)
    (original filterAgainst : List String) :
    (∃ r, splitCodeownersLine line = r) ∧
    (∃ r, splitOwnerPatterns ownerText = r) ∧
    (∃ r, translateCoToGlob pattern = r) ∧
    (∃ r, filterSlice original filterAgainst = r) :=
  ⟨⟨_, rfl⟩, ⟨_, rfl⟩, ⟨_, rfl⟩, ⟨_, rfl⟩⟩

/-- C10: a bare `@` owner token contributes nothing to the final fact sets:
it is classified as a user/group reference, stripping the `@` leaves the
empty string, and the empty string is never a member of the
`UserAndGroupPatterns` output of `analyze`. -/
theorem bare_at_token_contributes_nothing (s : List Char)
    (h : ("@").toList ∈ goFields s) :
    ("@").toList ∈ (splitOwnerPatterns s).1 ∧
    trimLeadingAt (("@").toList) = [] ∧
    (∀ lines, [] ∉ (analyze lines).UserAndGroupPatterns) := by
  refine ⟨?_, rfl, ?_⟩
  · rw [show (splitOwnerPatterns s).1 =
        (goFields s).filter (fun tk => hasAtHead tk) from (classifyTokens_filter _).1]
    exact List.mem_filter.mpr ⟨h, by decide⟩
  · intro lines
    have hm := analyzeFold_nodup lines ⟨[], [], [], [], []⟩
      List.nodup_nil List.nodup_nil List.nodup_nil List.nodup_nil List.nodup_nil
    exact setMapToSlice_no_empty hm.2.2.1

/-- Witness for C10 at the owner text `"@"` and a one-line file. -/
theorem bare_at_token_contributes_nothing_witness :
    ("@").toList ∈ (splitOwnerPatterns (("@").toList)).1 ∧
    trimLeadingAt (("@").toList) = [] ∧
    [] ∉ (analyze [("* @").toList]).UserAndGroupPatterns :=
  ⟨(bare_at_token_contributes_nothing (("@").toList) (by decide)).1,
    (bare_at_token_contributes_nothing (("@").toList) (by decide)).2.1,
    (bare_at_token_contributes_nothing (("@").toList) (by decide)).2.2 [("* @").toList]⟩
